import Mathlib

/-!
# Verification of the libobs-rs lint crates

Shallow embedding of the three dylint lint crates of this repository:

* `require_safety_comments_on_unsafe` — safety-marker enforcement for
  unsafe functions and unsafe blocks;
* `ensure_obs_call_in_runtime` — guarded-call enforcement (libobs calls
  must be inside a closure passed to `run_with_obs` / `run_with_obs_result`);
* `no_unqualified_libobs_uses` — fully-qualified-reference enforcement.

Source text is modelled as `List Char`; spans are byte offsets (`Nat`).
The source-text service (`span_to_snippet`) may fail, which is modelled by
an `Option`-returning field of `SourceMap`.
-/

namespace Lex

/-- Rust `str::starts_with` on character lists: `listIsPre pat s` is
`true` iff `pat` is a prefix of `s`. -/
def listIsPre : List Char → List Char → Bool
  | [], _ => true
  | _ :: _, [] => false
  | p :: ps, c :: cs => p == c && listIsPre ps cs

/-- Rust `str::contains` with a literal pattern: `containsSeq pat s` is
`true` iff `pat` occurs as a contiguous run inside `s`. -/
def containsSeq (pat : List Char) : List Char → Bool
  | [] => listIsPre pat []
  | c :: cs => listIsPre pat (c :: cs) || containsSeq pat cs

/-- Rust `str::strip_prefix`: `stripPreOpt pat s` is `some rest` iff
`s = pat ++ rest`, otherwise `none`. -/
def stripPreOpt : List Char → List Char → Option (List Char)
  | [], s => some s
  | _ :: _, [] => none
  | p :: ps, c :: cs => if p == c then stripPreOpt ps cs else none

/-- Rust `char::is_whitespace` restricted to the ASCII whitespace that can
occur in the texts at hand. -/
def isWs (c : Char) : Bool :=
  c == ' ' || c == '\t' || c == '\r' || c == '\n'

/-- Models Rust `str::trim`: removes leading and trailing whitespace. -/
def trimChars (s : List Char) : List Char :=
  ((s.dropWhile isWs).reverse.dropWhile isWs).reverse

/-- Drop a single trailing carriage return (the `\r` of a `\r\n` line
ending), as Rust `str::lines` does for each line that ends in `\r\n`. -/
def stripCr (l : List Char) : List Char :=
  if l.getLast? = some '\r' then l.dropLast else l

/-- Worker for `rustLines`: `acc` holds the current line, reversed. -/
def rustLinesAux (acc : List Char) : List Char → List (List Char)
  | [] => [acc.reverse]
  | c :: rest =>
    if c = '\n' then
      match rest with
      | [] => [stripCr acc.reverse]
      | r :: rs => stripCr acc.reverse :: rustLinesAux [] (r :: rs)
    else
      rustLinesAux (c :: acc) rest

/-- Models Rust `str::lines`: splits at `\n` (also absorbing a preceding
`\r`); the final line ending is optional and produces no empty last line;
the empty string has no lines. -/
def rustLines (s : List Char) : List (List Char) :=
  match s with
  | [] => []
  | c :: cs => rustLinesAux [] (c :: cs)

end Lex

namespace Hir

/-- A byte-range span of a node inside one source file
(`rustc_span::Span`, restricted to what the lints read). -/
structure Span where
  lo : Nat
  hi : Nat
deriving DecidableEq, Repr

/-- The source-map service used by the safety lint
(`SourceMap::span_to_snippet` plus the file start position used by the
lookback clamping).  `snippet lo hi` returns the text of `[lo, hi)` or
`none` when extraction fails. -/
structure SourceMap where
  fileStart : Nat
  snippet : Nat → Nat → Option (List Char)

/-- A concrete source map for a single pre-loaded file starting at byte 0:
extraction succeeds exactly on in-range, well-ordered spans. -/
def smOfSrc (src : List Char) : SourceMap :=
  { fileStart := 0
    snippet := fun lo hi =>
      if lo ≤ hi ∧ hi ≤ src.length then some ((src.drop lo).take (hi - lo)) else none }

/-- The `rustc_hir::BlockCheckMode` discriminant, restricted to what `check_block` matches. -/
inductive BlockCheckMode where
  | defaultBlock
  | unsafeBlock
deriving DecidableEq, Repr

/-- A `rustc_hir::Block` as read by the safety lint: statement spans, the
optional trailing expression's span, the check mode, and the block span. -/
structure BlockNode where
  stmts : List Span
  expr : Option Span
  rules : BlockCheckMode
  span : Span
deriving DecidableEq, Repr

/-- An associated function of an `impl` or `trait` block (a
`rustc_hir::ImplItem`/`TraitItem` of function kind): its unsafety and span. -/
structure AssocFn where
  isUnsafe : Bool
  lo : Nat
  hi : Nat
deriving DecidableEq, Repr

/-- The `rustc_hir::ItemKind` discriminant, restricted to the kinds relevant here.  An
associated function lives inside an `implBlock`/`traitBlock` item and is a
separate `ImplItem`/`TraitItem` node, never an `ItemKind.fn` item. -/
inductive ItemKind where
  | fn (isUnsafe : Bool)
  | implBlock (assocFns : List AssocFn)
  | traitBlock (assocFns : List AssocFn)
  | other
deriving DecidableEq, Repr

/-- A `rustc_hir::Item` as read by `check_item`. -/
structure ItemNode where
  kind : ItemKind
  lo : Nat
  hi : Nat
deriving DecidableEq, Repr

/-- A `rustc_hir::QPath` as read by the two call lints: a `Resolved` path
carries whether a `Self`-type qualifier is present, its segment names, and
the crate name of the resolved definition (`none` when `opt_def_id`
yields nothing); a type-relative path carries only the resolution. -/
inductive QPathE where
  | resolved (hasSelfTy : Bool) (segments : List String) (res : Option String)
  | typeRel (res : Option String)
deriving DecidableEq, Repr

/-- Resolution of a callee path: `cx.qpath_res(..).opt_def_id()` followed by
`tcx.crate_name(def_id.krate)`: the crate name of the resolved
definition, or `none` when the callee resolves to no definition. -/
def qpathOptDefCrate : QPathE → Option String
  | .resolved _ _ r => r
  | .typeRel r => r

mutual
/-- A `rustc_hir::Expr` as read by the two call lints.  Every node carries
its `HirId` (a `Nat`); a call node also carries its span.  The callee of a
`call` is itself an expression (`pathE` when it is `ExprKind::Path`). -/
inductive HExpr where
  | methodCall (id : Nat) (name : String) (receiver : HExpr) (args : HExprList)
  | closure (id : Nat) (body : HExpr)
  | call (id : Nat) (span : Nat) (callee : HExpr) (args : HExprList)
  | pathE (id : Nat) (q : QPathE)
  | lit (id : Nat)
/-- An argument list of expressions. -/
inductive HExprList where
  | nil
  | cons (e : HExpr) (rest : HExprList)
end

/-- Membership of an expression as a direct element of an argument list. -/
def HExprList.hasElem (x : HExpr) : HExprList → Prop
  | .nil => False
  | .cons a rest => a = x ∨ HExprList.hasElem x rest

end Hir

namespace RequireSafetyCommentsOnUnsafe

open Lex Hir

/-- The heading marker searched for by `has_safety_doc_comment`. -/
def safetyHeading : List Char := "# Safety".toList

/-- The two line prefixes accepted by `has_safety_comment_before_block`. -/
def safetyUpper : List Char := "// SAFETY:".toList

/-- The lowercase variant accepted by `has_safety_comment_before_block`. -/
def safetyLower : List Char := "// Safety:".toList

/-- Function `has_safety_doc_comment` from
`src/require_safety_comments_on_unsafe/src/lib.rs` (lines 94–123): look
back up to 1000 bytes (clamped to the file start) from the item's start
and test whether the snippet contains `# Safety`; a failed snippet
extraction yields `false`. -/
def has_safety_doc_comment (sm : SourceMap) (itemLo : Nat) : Bool :=
  let searchStart :=
    if itemLo ≥ sm.fileStart + 1000 then itemLo - 1000 else sm.fileStart
  match sm.snippet searchStart itemLo with
  | some precedingText => containsSeq safetyHeading precedingText
  | none => false

/-- The position of the first statement (else the trailing expression) of
a block, as selected by `has_safety_comment_before_block`. -/
def firstItemLo (b : BlockNode) : Option Nat :=
  match b.stmts.head? with
  | some st => some st.lo
  | none =>
    match b.expr with
    | some e => some e.lo
    | none => none

/-- The line scan of `has_safety_comment_before_block`: some line of the
text, once trimmed, starts with `// SAFETY:` or `// Safety:`. -/
def linesHaveSafetyMarker (text : List Char) : Bool :=
  (rustLines text).any fun line =>
    listIsPre safetyUpper (trimChars line) || listIsPre safetyLower (trimChars line)

/-- Function `has_safety_comment_before_block` from
`src/require_safety_comments_on_unsafe/src/lib.rs` (lines 125–165): an
empty block returns `false`; otherwise the text between the block start
(opening brace) and the first statement/expression is scanned line by
line for the safety prefixes; a failed snippet extraction yields `false`. -/
def has_safety_comment_before_block (sm : SourceMap) (b : BlockNode) : Bool :=
  if b.stmts.isEmpty && b.expr.isNone then
    false
  else
    match firstItemLo b with
    | none => false
    | some firstLo =>
      match sm.snippet b.span.lo firstLo with
      | some textBeforeFirstItem => linesHaveSafetyMarker textBeforeFirstItem
      | none => false

/-- Function `check_item` (lines 61–76): for an `ItemKind::Fn` whose header is
unsafe and which lacks a safety doc comment, emit one Finding at the
item's span. -/
def checkItem (sm : SourceMap) (it : ItemNode) : List Span :=
  match it.kind with
  | .fn isUnsafe =>
    if isUnsafe && !(has_safety_doc_comment sm it.lo) then [⟨it.lo, it.hi⟩] else []
  | _ => []

/-- Function `check_block` (lines 78–91): for an unsafe block lacking a safety
comment, emit one Finding at the block's span. -/
def checkBlock (sm : SourceMap) (b : BlockNode) : List Span :=
  match b.rules with
  | .unsafeBlock =>
    if !(has_safety_comment_before_block sm b) then [b.span] else []
  | .defaultBlock => []

end RequireSafetyCommentsOnUnsafe

namespace NoUnqualifiedLibobsUses

open Lex Hir

/-- Function `is_from_libobs_crate` from `src/no_unqualified_libobs_uses/src/lib.rs`
(lines 93–101): strip the prefix `libobs` from the crate name; accept when
the remainder is empty or begins with `-` or `_`. -/
def is_from_libobs_crate (crateName : String) : Bool :=
  match stripPreOpt "libobs".toList crateName.toList with
  | some rest =>
    rest.isEmpty || listIsPre ['-'] rest || listIsPre ['_'] rest
  | none => false

/-- Function `check_expr` (lines 60–90): on a direct call whose callee is a
`QPath::Resolved(None, path)` resolving to a definition from the libobs
crate family, and whose path has exactly one segment, emit one Finding at
the call expression's span carrying the unqualified function name. -/
def checkExpr (e : HExpr) : List (Nat × String) :=
  match e with
  | .call _ sp f _ =>
    match f with
    | .pathE _ q =>
      match q with
      | .resolved false segments res =>
        match res with
        | some crateName =>
          if is_from_libobs_crate crateName then
            if segments.length == 1 then [(sp, segments.getD 0 "")] else []
          else []
        | none => []
      | _ => []
    | _ => []
  | _ => []

end NoUnqualifiedLibobsUses

namespace EnsureObsCallInRuntime

open Hir

/-- The traversal state of the lint: `allowed` models the thread-local
`ALLOWED_CLOSURES` set of `HirId`s, `stack` the thread-local
`CLOSURE_STACK` (head of the list = top of the `Vec`), and `findings` the
spans linted so far, in emission order.  `trace` is pure instrumentation
used only to state properties: it records, for every call expression
visited, the pair of the call's id and the value of `currently_allowed()`
at that moment; no definition reads it. -/
structure LintState where
  allowed : List Nat
  stack : List Bool
  findings : List Nat
  trace : List (Nat × Bool)
deriving DecidableEq, Repr

/-- The state at thread start: both thread-local structures empty. -/
def initState : LintState := ⟨[], [], [], []⟩

/-- Function `is_from_libobs_crate` from `src/ensure_obs_call_in_runtime/src/lib.rs`
(lines 100–102): exact crate-name match. -/
def is_from_libobs_crate (crateName : String) : Bool :=
  crateName == "libobs"

/-- Function `currently_allowed` (lines 136–138): top of the closure stack, or
`false` when the stack is empty. -/
def currently_allowed (s : LintState) : Bool :=
  s.stack.headD false

/-- Function `mark_allowed_closure_args` (lines 109–118): insert the `HirId` of
every closure argument of the wrapper call into the allowed set. -/
def mark_allowed_closure_args (s : LintState) : HExprList → LintState
  | .nil => s
  | .cons a rest =>
    mark_allowed_closure_args
      (match a with
       | .closure i _ => { s with allowed := s.allowed.insert i }
       | _ => s)
      rest

/-- Function `push_closure_allowed` (lines 120–129): push
`is_allowed || inherited` where `inherited` is the current top of the
stack (default `false`). -/
def push_closure_allowed (s : LintState) (i : Nat) : LintState :=
  let isAllowed := decide (i ∈ s.allowed)
  { s with stack := (isAllowed || s.stack.headD false) :: s.stack }

/-- Function `pop_closure_allowed` (lines 131–134): pop the top of the stack (a
no-op on an empty stack, like `Vec::pop`). -/
def pop_closure_allowed (s : LintState) : LintState :=
  { s with stack := s.stack.tail }

/-- The `ExprKind::Call` branch of `check_expr` (lines 74–91): when the
callee `f` is a path expression whose resolution yields a definition of
the `libobs` crate and `currently_allowed()` is false, emit one Finding
at the call expression's span `sp`; in every other case do nothing. -/
def lintCall (s : LintState) (sp : Nat) (f : HExpr) : LintState :=
  match f with
  | .pathE _ q =>
    match qpathOptDefCrate q with
    | some crateName =>
      if is_from_libobs_crate crateName && !(currently_allowed s) then
        { s with findings := s.findings ++ [sp] }
      else s
    | none => s
  | _ => s

/-- Function `check_expr` (lines 62–92), pre-order hook: mark the closure
arguments of a `run_with_obs`/`run_with_obs_result` method call; push on
entering a closure; on a direct call, run `lintCall`.  (The `trace`
update is ghost instrumentation recording the call's id together with
the value of `currently_allowed()` at the moment the call is visited; no
definition reads it.) -/
def checkExprPre (s : LintState) (e : HExpr) : LintState :=
  let s1 :=
    match e with
    | .methodCall _ nm _ args =>
      if nm == "run_with_obs" || nm == "run_with_obs_result" then
        mark_allowed_closure_args s args
      else s
    | _ => s
  let s2 :=
    match e with
    | .closure i _ => push_closure_allowed s1 i
    | _ => s1
  match e with
  | .call i sp f _ =>
    lintCall { s2 with trace := s2.trace ++ [(i, currently_allowed s2)] } sp f
  | _ => s2

/-- Function `check_expr_post` (lines 94–98): pop on leaving a closure. -/
def checkExprPost (s : LintState) (e : HExpr) : LintState :=
  match e with
  | .closure _ _ => pop_closure_allowed s
  | _ => s

mutual
/-- The late lint traversal: `check_expr` on the node, then its children
in source order (receiver before arguments, callee before arguments,
closure body), then `check_expr_post`. -/
def walk (s : LintState) : HExpr → LintState
  | .methodCall i nm recv args =>
    let s1 := checkExprPre s (.methodCall i nm recv args)
    let s2 := walkList (walk s1 recv) args
    checkExprPost s2 (.methodCall i nm recv args)
  | .closure i body =>
    let s1 := checkExprPre s (.closure i body)
    let s2 := walk s1 body
    checkExprPost s2 (.closure i body)
  | .call i sp f args =>
    let s1 := checkExprPre s (.call i sp f args)
    let s2 := walkList (walk s1 f) args
    checkExprPost s2 (.call i sp f args)
  | .pathE i q => checkExprPost (checkExprPre s (.pathE i q)) (.pathE i q)
  | .lit i => checkExprPost (checkExprPre s (.lit i)) (.lit i)
/-- Walk a list of children left to right. -/
def walkList (s : LintState) : HExprList → LintState
  | .nil => s
  | .cons e rest => walkList (walk s e) rest
end

end EnsureObsCallInRuntime

/-!
## Claim-side definitions

Each definition below renders the words of one spec claim (not the
source), to be compared with the embedded code in the refinement
theorems, plus the concrete inputs used by counterexamples and
witnesses.
-/

namespace RequireSafetyCommentsOnUnsafe

open Lex Hir

/-- Modelled from the words of claim C2 (refinement comparison only): the
block-level check is claimed to search the window from
`max (block start - 300) fileStart` up to just before the block's first
statement/expression, accepting when some line of that window, once
trimmed, starts with a recognized prefix. -/
def blockMarkerWindowClaim (sm : SourceMap) (b : BlockNode) : Bool :=
  match firstItemLo b with
  | some firstLo =>
    match sm.snippet (max (b.span.lo - 300) sm.fileStart) firstLo with
    | some text => linesHaveSafetyMarker text
    | none => false
  | none => false

/-- The spec's wording of the block-level acceptance condition: some line
of the inspected text, once trimmed, starts with `// SAFETY:` or
`// Safety:`. -/
def lineMarkerClaim (text : List Char) : Prop :=
  ∃ l ∈ rustLines text,
    listIsPre safetyUpper (trimChars l) = true ∨ listIsPre safetyLower (trimChars l) = true

/-- The spec's wording of the function-level acceptance condition: the
window text contains the heading marker `# Safety` anywhere. -/
def containsHeadingClaim (text : List Char) : Prop :=
  ∃ l1 l2, text = l1 ++ safetyHeading ++ l2

/-- A source map on which every snippet extraction fails, modelling the
source-text service returning an error for every span. -/
def smNone : SourceMap := ⟨0, fun _ _ => none⟩

/-- Concrete file for the C2 counterexample: a `// SAFETY:` line directly
above a non-empty unsafe block (well within 300 bytes of the block
start), with no comment inside the block (braces written as escapes). -/
def c2File : List Char := "// SAFETY: ok\nunsafe \x7b f(); \x7d".toList

/-- The unsafe block of `c2File`: opening brace at byte 21, its single
statement `f();` spanning bytes 23–27, block span 21–29. -/
def c2Blk : BlockNode := ⟨[⟨23, 27⟩], none, .unsafeBlock, ⟨21, 29⟩⟩

/-- Concrete file for the C2-amended witness: the safety comment sits
inside the block, on its own line before the first statement. -/
def c2WitFile : List Char := "unsafe \x7b\n    // SAFETY: ok\n    f();\n\x7d".toList

/-- The unsafe block of `c2WitFile`: opening brace at byte 7, first
statement `f();` at bytes 31–35, block span 7–37. -/
def c2WitBlk : BlockNode := ⟨[⟨31, 35⟩], none, .unsafeBlock, ⟨7, 37⟩⟩

/-- The window text of `c2WitBlk`: from the opening brace to the first
statement. -/
def c2WitText : List Char := "\x7b\n    // SAFETY: ok\n    ".toList

/-- Concrete file for the C7 witness: an unsafe function preceded by a
`# Safety` doc heading; the function item starts at byte 20. -/
def c7File : List Char := "/// # Safety\n/// ok\nunsafe fn f() \x7b\x7d".toList

/-- The window text preceding the function of `c7File`. -/
def c7Text : List Char := "/// # Safety\n/// ok\n".toList

/-- A non-empty unsafe block used by the C3 counterexample: one statement
at bytes 30–40 inside a block spanning 20–45. -/
def c3Blk : BlockNode := ⟨[⟨30, 40⟩], none, .unsafeBlock, ⟨20, 45⟩⟩

end RequireSafetyCommentsOnUnsafe

namespace NoUnqualifiedLibobsUses

open Lex Hir

/-- Modelled from the words of claim C6 (Strategy B, refinement
comparison only): the crate name equals `libobs`, or is `libobs`
followed by `-` or `_`. -/
def strategyBClaim (crateName : String) : Bool :=
  crateName == "libobs"
    || listIsPre "libobs-".toList crateName.toList
    || listIsPre "libobs_".toList crateName.toList

/-- Modelled from the words of claim C6 (refinement comparison only): a
Finding, naming the unqualified symbol, exactly for direct calls whose
callee is an unqualified path of exactly one segment resolving to the
restricted family per Strategy B. -/
def c6FindingsClaim (e : HExpr) : List (Nat × String) :=
  match e with
  | .call _ sp (.pathE _ (.resolved false segments (some crateName))) _ =>
    if segments.length == 1 && strategyBClaim crateName then
      [(sp, segments.getD 0 "")]
    else []
  | _ => []

end NoUnqualifiedLibobsUses

namespace EnsureObsCallInRuntime

open Hir

/-- Modelled from the words of claim C5 (refinement comparison only): a
Finding at the call expression's span exactly for direct (non-method)
calls whose callee resolves to a definition whose originating crate name
equals exactly `libobs` while `is_currently_permitted()` is false. -/
def guardedFindingsClaim (s : LintState) (e : HExpr) : List Nat :=
  match e with
  | .call _ sp (.pathE _ q) _ =>
    match qpathOptDefCrate q with
    | some crateName =>
      if crateName == "libobs" && !(currently_allowed s) then [sp] else []
    | none => []
  | _ => []

/-- The closure body used in the C4 witness: a closure nested inside the
wrapper's closure argument, containing a libobs call. -/
def c4Body : HExpr := .closure 3 (.call 4 77 (.pathE 5 (.typeRel (some "libobs"))) .nil)

/-- The wrapper method call of the C4 witness: `run_with_obs` taking one
closure argument (id 2) whose body is `c4Body`. -/
def c4Wrapper : HExpr :=
  .methodCall 0 "run_with_obs" (.lit 1) (.cons (.closure 2 c4Body) .nil)

/-- First compilation unit of the C8 counterexample: a wrapper call
marking its closure argument (id 5) in the allowed set. -/
def c8Unit1 : HExpr :=
  .methodCall 0 "run_with_obs" (.lit 1) (.cons (.closure 5 (.lit 6)) .nil)

/-- Second compilation unit of the C8 counterexample: a closure whose
`HirId` collides with the one marked in the first unit, containing a
libobs call that should be flagged when analyzed fresh. -/
def c8Unit2 : HExpr :=
  .closure 5 (.call 7 99 (.pathE 8 (.typeRel (some "libobs"))) .nil)

end EnsureObsCallInRuntime

/-!
## Lexical lemmas
-/

namespace Lex

theorem listIsPre_iff : ∀ (pat s : List Char), listIsPre pat s = true ↔ ∃ r, s = pat ++ r
  | [], s => by simp [listIsPre]
  | p :: ps, [] => by simp [listIsPre]
  | p :: ps, c :: cs => by
    rw [listIsPre]
    simp only [Bool.and_eq_true, beq_iff_eq, listIsPre_iff ps cs]
    constructor
    · rintro ⟨rfl, r, rfl⟩
      exact ⟨r, rfl⟩
    · rintro ⟨r, h⟩
      rw [List.cons_append] at h
      injection h with h1 h2
      exact ⟨h1.symm, r, h2⟩

theorem containsSeq_iff : ∀ (pat s : List Char),
    containsSeq pat s = true ↔ ∃ l1 l2, s = l1 ++ pat ++ l2
  | pat, [] => by
    rw [containsSeq]
    simp only [listIsPre_iff]
    constructor
    · rintro ⟨r, h⟩
      exact ⟨[], r, by simpa using h⟩
    · rintro ⟨l1, l2, h⟩
      have h2 : l1 = [] ∧ pat = [] ∧ l2 = [] := by simpa using h.symm
      exact ⟨l2, by simp [h2.2.1, h2.2.2]⟩
  | pat, c :: cs => by
    rw [containsSeq]
    simp only [Bool.or_eq_true, listIsPre_iff, containsSeq_iff pat cs]
    constructor
    · rintro (⟨r, h⟩ | ⟨l1, l2, h⟩)
      · exact ⟨[], r, by simpa using h⟩
      · exact ⟨c :: l1, l2, by simp [h]⟩
    · rintro ⟨l1, l2, h⟩
      cases l1 with
      | nil => exact Or.inl ⟨l2, by simpa using h⟩
      | cons x l1 =>
        rw [List.cons_append, List.cons_append] at h
        injection h with h1 h2
        exact Or.inr ⟨l1, l2, h2⟩

theorem stripPreOpt_some_iff : ∀ (pat s r : List Char),
    stripPreOpt pat s = some r ↔ s = pat ++ r
  | [], s, r => by simp [stripPreOpt]
  | p :: ps, [], r => by
    show (none : Option (List Char)) = some r ↔ ([] : List Char) = p :: (ps ++ r)
    constructor
    · intro h
      cases h
    · intro h
      cases h
  | p :: ps, c :: cs, r => by
    rw [stripPreOpt]
    by_cases h : p == c
    · rw [if_pos h]
      rw [stripPreOpt_some_iff ps cs r]
      have hpc : p = c := by simpa using h
      subst hpc
      simp
    · rw [if_neg h]
      constructor
      · intro hc
        cases hc
      · intro hc
        rw [List.cons_append] at hc
        injection hc with h1 h2
        exact absurd (by simpa using h1.symm) h

theorem listIsPre_append_left : ∀ (p q s : List Char),
    listIsPre (p ++ q) (p ++ s) = listIsPre q s
  | [], q, s => rfl
  | a :: p, q, s => by
    rw [List.cons_append, List.cons_append, listIsPre]
    simp [listIsPre_append_left p q s]

end Lex

/-!
## Claims on the safety-marker lint
-/

namespace RequireSafetyCommentsOnUnsafe

open Lex Hir

theorem linesHaveSafetyMarker_iff (text : List Char) :
    linesHaveSafetyMarker text = true ↔ lineMarkerClaim text := by
  simp [linesHaveSafetyMarker, lineMarkerClaim, List.any_eq_true]

theorem searchStart_eq (fs lo : Nat) :
    (if lo ≥ fs + 1000 then lo - 1000 else fs) = max (lo - 1000) fs := by
  split
  · exact (Nat.max_eq_left (by omega)).symm
  · exact (Nat.max_eq_right (by omega)).symm

theorem firstItemLo_ne_empty (b : BlockNode) (fl : Nat) (h : firstItemLo b = some fl) :
    (b.stmts.isEmpty && b.expr.isNone) = false := by
  obtain ⟨stmts, expr, rules, span⟩ := b
  cases stmts <;> cases expr <;> simp_all [firstItemLo]

theorem has_safety_doc_comment_eq (sm : SourceMap) (itemLo : Nat) :
    has_safety_doc_comment sm itemLo =
      (match sm.snippet (max (itemLo - 1000) sm.fileStart) itemLo with
       | some t => containsSeq safetyHeading t
       | none => false) := by
  unfold has_safety_doc_comment
  rw [searchStart_eq]

theorem has_safety_comment_before_block_eq (sm : SourceMap) (b : BlockNode) (fl : Nat)
    (hfl : firstItemLo b = some fl) :
    has_safety_comment_before_block sm b =
      (match sm.snippet b.span.lo fl with
       | some t => linesHaveSafetyMarker t
       | none => false) := by
  have hne := firstItemLo_ne_empty b fl hfl
  unfold has_safety_comment_before_block
  rw [hne, hfl]
  simp

/-- C1: the spec says an empty unsafe block (no statements, no trailing
expression) never produces a Finding; the code — contradicting its own
comment "Empty block, no safety comment needed" — returns `false` from
`has_safety_comment_before_block` for an empty block, which makes
`check_block` emit a Finding at the block's span, whatever the source
map. -/
theorem C1_empty_unsafe_block_flagged (sm : SourceMap) (lo hi : Nat) :
    checkBlock sm ⟨[], none, .unsafeBlock, ⟨lo, hi⟩⟩ = [⟨lo, hi⟩] := by
  simp [checkBlock, has_safety_comment_before_block]

/-- C2 counterexample: a non-empty unsafe block with a `// SAFETY:` line
immediately above it (well inside the claimed 300-byte lookback window)
is still flagged, because the code's window starts at the block's opening
brace, not 300 bytes before it: the claimed window accepts while the code
emits a Finding. -/
theorem C2_counterexample :
    checkBlock (smOfSrc c2File) c2Blk = [⟨21, 29⟩]
      ∧ blockMarkerWindowClaim (smOfSrc c2File) c2Blk = true := by
  exact ⟨by decide, by decide⟩

/-- C2 (amended): for every non-empty unsafe block whose text between the
block's opening brace and its first statement/expression is available,
the check emits no Finding iff some line of that text, once trimmed,
starts with `// SAFETY:` or `// Safety:`; otherwise it emits exactly one
Finding at the block's span.  (The searched window is the block interior
before the first item — there is no 300-byte lookback before the block.) -/
theorem C2_amended_block_interior_window (sm : SourceMap) (b : BlockNode) (fl : Nat)
    (text : List Char)
    (hrules : b.rules = .unsafeBlock)
    (hfl : firstItemLo b = some fl)
    (hsnip : sm.snippet b.span.lo fl = some text) :
    (checkBlock sm b = [] ↔ lineMarkerClaim text)
      ∧ (¬ lineMarkerClaim text → checkBlock sm b = [b.span]) := by
  have hmark : has_safety_comment_before_block sm b = linesHaveSafetyMarker text := by
    rw [has_safety_comment_before_block_eq sm b fl hfl, hsnip]
  obtain ⟨stmts, expr, rules, span⟩ := b
  simp only at hrules
  subst hrules
  simp only [checkBlock, hmark]
  cases hmr : linesHaveSafetyMarker text with
  | true =>
    have hcl : lineMarkerClaim text := (linesHaveSafetyMarker_iff text).mp hmr
    simp [hcl]
  | false =>
    have hcl : ¬ lineMarkerClaim text := by
      intro h
      rw [(linesHaveSafetyMarker_iff text).mpr h] at hmr
      cases hmr
    simp [hcl]

/-- C2 witness: a block whose safety comment sits inside the block, on
its own line before the first statement, is accepted by the amended
characterization. -/
theorem C2_amended_witness :
    c2WitBlk.rules = BlockCheckMode.unsafeBlock
      ∧ firstItemLo c2WitBlk = some 31
      ∧ (smOfSrc c2WitFile).snippet c2WitBlk.span.lo 31 = some c2WitText
      ∧ checkBlock (smOfSrc c2WitFile) c2WitBlk = [] := by
  refine ⟨rfl, rfl, by decide, ?_⟩
  exact (C2_amended_block_interior_window (smOfSrc c2WitFile) c2WitBlk 31 c2WitText rfl rfl
      (by decide)).1.mpr ⟨"    // SAFETY: ok".toList, by decide, Or.inl (by decide)⟩

/-- C3 counterexample: when the source-text service fails (here: fails on
every span), the safety-marker checks do not skip — an unsafe function
item and a non-empty unsafe block are both flagged. -/
theorem C3_counterexample :
    checkItem smNone ⟨.fn true, 0, 50⟩ = [⟨0, 50⟩]
      ∧ checkBlock smNone c3Blk = [⟨20, 45⟩] :=
  ⟨rfl, rfl⟩

/-- C3 (amended): for an unsafe function item and for a non-empty unsafe
block, if extracting the preceding source text fails, the corresponding
safety-marker check treats the marker as absent and emits a Finding at
the node's span (fail-closed, not fail-open). -/
theorem C3_amended_extraction_failure_flags (sm : SourceMap) (lo hi fl : Nat) (b : BlockNode)
    (h1 : sm.snippet (max (lo - 1000) sm.fileStart) lo = none)
    (h2 : b.rules = .unsafeBlock)
    (h3 : firstItemLo b = some fl)
    (h4 : sm.snippet b.span.lo fl = none) :
    checkItem sm ⟨.fn true, lo, hi⟩ = [⟨lo, hi⟩] ∧ checkBlock sm b = [b.span] := by
  constructor
  · have hdoc : has_safety_doc_comment sm lo = false := by
      rw [has_safety_doc_comment_eq, h1]
    simp [checkItem, hdoc]
  · have hmark : has_safety_comment_before_block sm b = false := by
      rw [has_safety_comment_before_block_eq sm b fl h3, h4]
    obtain ⟨stmts, expr, rules, span⟩ := b
    simp only at h2
    subst h2
    simp [checkBlock, hmark]

/-- C3 witness: the amended theorem applied to the always-failing source
map and concrete nodes. -/
theorem C3_amended_witness :
    smNone.snippet (max (1200 - 1000) smNone.fileStart) 1200 = none
      ∧ c3Blk.rules = BlockCheckMode.unsafeBlock
      ∧ firstItemLo c3Blk = some 30
      ∧ smNone.snippet c3Blk.span.lo 30 = none
      ∧ checkItem smNone ⟨.fn true, 1200, 1300⟩ = [⟨1200, 1300⟩]
      ∧ checkBlock smNone c3Blk = [c3Blk.span] := by
  refine ⟨rfl, rfl, rfl, rfl, ?_, ?_⟩
  · exact (C3_amended_extraction_failure_flags smNone 1200 1300 30 c3Blk rfl rfl rfl rfl).1
  · exact (C3_amended_extraction_failure_flags smNone 1200 1300 30 c3Blk rfl rfl rfl rfl).2

/-- C7: for every function item whose signature is unsafe, when the text
of the window from `max (start - 1000) fileStart` up to the function's
start is available, exactly one Finding is emitted at the function's span
iff that text does not contain `# Safety` — the marker is accepted
anywhere in the window. -/
theorem C7_fn_heading_window (sm : SourceMap) (lo hi : Nat) (text : List Char)
    (hsnip : sm.snippet (max (lo - 1000) sm.fileStart) lo = some text) :
    (checkItem sm ⟨.fn true, lo, hi⟩ = [] ↔ containsHeadingClaim text)
      ∧ (¬ containsHeadingClaim text → checkItem sm ⟨.fn true, lo, hi⟩ = [⟨lo, hi⟩]) := by
  have hdoc : has_safety_doc_comment sm lo = containsSeq safetyHeading text := by
    rw [has_safety_doc_comment_eq, hsnip]
  cases hc : containsSeq safetyHeading text with
  | true =>
    have hcl : containsHeadingClaim text := (containsSeq_iff safetyHeading text).mp hc
    simp [checkItem, hdoc, hc, hcl]
  | false =>
    have hcl : ¬ containsHeadingClaim text := by
      intro h
      rw [(containsSeq_iff safetyHeading text).mpr h] at hc
      cases hc
    simp [checkItem, hdoc, hc, hcl]

/-- C7 witness: a concrete unsafe function preceded by a `# Safety` doc
heading is accepted by the characterization. -/
theorem C7_fn_heading_witness :
    (smOfSrc c7File).snippet (max (20 - 1000) (smOfSrc c7File).fileStart) 20 = some c7Text
      ∧ checkItem (smOfSrc c7File) ⟨.fn true, 20, 36⟩ = [] := by
  refine ⟨by decide, ?_⟩
  exact (C7_fn_heading_window (smOfSrc c7File) 20 36 c7Text (by decide)).1.mpr
    ⟨"/// ".toList, "\n/// ok\n".toList, by decide⟩

/-- C10: the function-level check inspects only `ItemKind::Fn` items; an
item that is an `impl` or `trait` block — whatever unsafe associated
functions it contains, and whatever text precedes it — never produces a
function-level Finding. -/
theorem C10_assoc_fns_not_inspected (sm : SourceMap) (l : List AssocFn) (lo hi : Nat) :
    checkItem sm ⟨.implBlock l, lo, hi⟩ = [] ∧ checkItem sm ⟨.traitBlock l, lo, hi⟩ = [] :=
  ⟨rfl, rfl⟩

end RequireSafetyCommentsOnUnsafe

/-!
## Claims on the fully-qualified-reference lint
-/

namespace NoUnqualifiedLibobsUses

open Lex Hir

theorem libobsDash_toList : ("libobs-".toList : List Char) = "libobs".toList ++ ['-'] := by
  decide

theorem libobsUnder_toList : ("libobs_".toList : List Char) = "libobs".toList ++ ['_'] := by
  decide

theorem is_from_eq_strategyB (cn : String) :
    is_from_libobs_crate cn = strategyBClaim cn := by
  cases h : stripPreOpt "libobs".toList cn.toList with
  | none =>
    have hnone : ∀ r : List Char, cn.toList ≠ "libobs".toList ++ r := by
      intro r hr
      rw [(stripPreOpt_some_iff "libobs".toList cn.toList r).mpr hr] at h
      cases h
    have hL : is_from_libobs_crate cn = false := by
      unfold is_from_libobs_crate
      rw [h]
    have h1 : (cn == "libobs") = false := by
      apply beq_eq_false_iff_ne.mpr
      intro hcn
      exact hnone [] (by rw [hcn]; simp)
    have h2 : listIsPre "libobs-".toList cn.toList = false := by
      apply Bool.eq_false_iff.mpr
      intro ht
      obtain ⟨r, hrr⟩ := (listIsPre_iff _ _).mp ht
      exact hnone ('-' :: r)
        (hrr.trans (by rw [libobsDash_toList, List.append_assoc]; rfl))
    have h3 : listIsPre "libobs_".toList cn.toList = false := by
      apply Bool.eq_false_iff.mpr
      intro ht
      obtain ⟨r, hrr⟩ := (listIsPre_iff _ _).mp ht
      exact hnone ('_' :: r)
        (hrr.trans (by rw [libobsUnder_toList, List.append_assoc]; rfl))
    rw [hL]
    unfold strategyBClaim
    rw [h1, h2, h3]
    rfl
  | some rest =>
    have hr : cn.toList = "libobs".toList ++ rest :=
      (stripPreOpt_some_iff "libobs".toList cn.toList rest).mp h
    have hL : is_from_libobs_crate cn =
        (rest.isEmpty || listIsPre ['-'] rest || listIsPre ['_'] rest) := by
      unfold is_from_libobs_crate
      rw [h]
    have hpre1 : listIsPre "libobs-".toList cn.toList = listIsPre ['-'] rest := by
      rw [hr, libobsDash_toList, listIsPre_append_left]
    have hpre2 : listIsPre "libobs_".toList cn.toList = listIsPre ['_'] rest := by
      rw [hr, libobsUnder_toList, listIsPre_append_left]
    have heq : (cn == "libobs") = rest.isEmpty := by
      cases rest with
      | nil =>
        have hcn : cn = "libobs" := by
          apply congrArg String.mk
          simpa using hr
        simp [hcn]
      | cons a rest2 =>
        have hne : cn ≠ "libobs" := by
          intro hcn
          rw [hcn] at hr
          have hlen := congrArg List.length hr
          simp [List.length_append] at hlen
        simp [beq_eq_false_iff_ne.mpr hne]
    rw [hL]
    unfold strategyBClaim
    rw [hpre1, hpre2, heq]

/-- C6: the fully-qualified-reference rule emits a Finding (naming the
unqualified symbol, at the call's span) exactly for direct calls whose
callee is an unqualified one-segment path resolving, per Strategy B
(`libobs` exactly, or `libobs` followed by `-` or `_`), to the
restricted crate family; any call spelled with two or more segments —
or with a `Self`-qualified or type-relative path — never produces a
Finding. -/
theorem C6_single_segment_strategyB (e : HExpr) :
    checkExpr e = c6FindingsClaim e := by
  cases e with
  | call i sp f args =>
    cases f with
    | pathE j q =>
      cases q with
      | resolved selfTy segs res =>
        cases selfTy with
        | false =>
          cases res with
          | some cn =>
            simp only [checkExpr, c6FindingsClaim, is_from_eq_strategyB]
            cases h1 : segs.length == 1 <;> cases h2 : strategyBClaim cn <;>
              simp [h1, h2]
          | none => rfl
        | true => rfl
      | typeRel r => rfl
    | methodCall _ _ _ _ => rfl
    | closure _ _ => rfl
    | call _ _ _ _ => rfl
    | lit _ => rfl
  | methodCall _ _ _ _ => rfl
  | closure _ _ => rfl
  | pathE _ _ => rfl
  | lit _ => rfl

end NoUnqualifiedLibobsUses

/-!
## Claim C9: resolution failure is fail-closed for both call rules
-/

/-- C9: for a direct call whose callee path resolves to no definition,
the guarded-call rule leaves the findings unchanged and the
fully-qualified-reference rule emits nothing: resolution failure means
the call is silently skipped by both rules. -/
theorem C9_unresolved_calls_skipped (s : EnsureObsCallInRuntime.LintState)
    (i j sp : Nat) (q : Hir.QPathE) (args : Hir.HExprList)
    (hq : Hir.qpathOptDefCrate q = none) :
    (EnsureObsCallInRuntime.checkExprPre s (.call i sp (.pathE j q) args)).findings
        = s.findings
      ∧ NoUnqualifiedLibobsUses.checkExpr (.call i sp (.pathE j q) args) = [] := by
  constructor
  · simp [EnsureObsCallInRuntime.checkExprPre, EnsureObsCallInRuntime.lintCall, hq]
  · cases q with
    | resolved b segs r =>
      simp only [Hir.qpathOptDefCrate] at hq
      subst hq
      cases b <;> rfl
    | typeRel r =>
      simp only [Hir.qpathOptDefCrate] at hq
      subst hq
      rfl

/-- C9 witness: a concrete unresolved single-segment call is skipped by
both rules. -/
theorem C9_unresolved_witness :
    Hir.qpathOptDefCrate (.resolved false ["obs_get_audio"] none) = none
      ∧ (EnsureObsCallInRuntime.checkExprPre EnsureObsCallInRuntime.initState
          (.call 0 5 (.pathE 1 (.resolved false ["obs_get_audio"] none)) .nil)).findings
          = EnsureObsCallInRuntime.initState.findings
      ∧ NoUnqualifiedLibobsUses.checkExpr
          (.call 0 5 (.pathE 1 (.resolved false ["obs_get_audio"] none)) .nil) = [] := by
  refine ⟨rfl, ?_, ?_⟩
  · exact (C9_unresolved_calls_skipped EnsureObsCallInRuntime.initState 0 1 5
      (.resolved false ["obs_get_audio"] none) .nil rfl).1
  · exact (C9_unresolved_calls_skipped EnsureObsCallInRuntime.initState 0 1 5
      (.resolved false ["obs_get_audio"] none) .nil rfl).2

/-!
## Traversal lemmas for the guarded-call lint
-/

namespace EnsureObsCallInRuntime

open Hir

theorem lintCall_components (s : LintState) (sp : Nat) (f : HExpr) :
    (lintCall s sp f).stack = s.stack ∧ (lintCall s sp f).allowed = s.allowed
      ∧ (lintCall s sp f).trace = s.trace := by
  cases f with
  | pathE j q =>
    cases hq : qpathOptDefCrate q with
    | some cn =>
      simp only [lintCall, hq]
      split <;> simp
    | none => simp [lintCall, hq]
  | methodCall _ _ _ _ => exact ⟨rfl, rfl, rfl⟩
  | closure _ _ => exact ⟨rfl, rfl, rfl⟩
  | call _ _ _ _ => exact ⟨rfl, rfl, rfl⟩
  | lit _ => exact ⟨rfl, rfl, rfl⟩

theorem mark_components : ∀ (s : LintState) (l : HExprList),
    (mark_allowed_closure_args s l).stack = s.stack
      ∧ (mark_allowed_closure_args s l).findings = s.findings
      ∧ (mark_allowed_closure_args s l).trace = s.trace
  | s, .nil => ⟨rfl, rfl, rfl⟩
  | s, .cons a rest => by
    cases a with
    | closure i b =>
      simpa [mark_allowed_closure_args] using
        mark_components { s with allowed := s.allowed.insert i } rest
    | methodCall _ _ _ _ =>
      simpa [mark_allowed_closure_args] using mark_components s rest
    | call _ _ _ _ =>
      simpa [mark_allowed_closure_args] using mark_components s rest
    | pathE _ _ =>
      simpa [mark_allowed_closure_args] using mark_components s rest
    | lit _ =>
      simpa [mark_allowed_closure_args] using mark_components s rest

theorem mark_allowed_mono : ∀ (s : LintState) (l : HExprList) (x : Nat),
    x ∈ s.allowed → x ∈ (mark_allowed_closure_args s l).allowed
  | s, .nil, x, hx => hx
  | s, .cons a rest, x, hx => by
    cases a with
    | closure i b =>
      have h2 : x ∈ ({ s with allowed := s.allowed.insert i } : LintState).allowed := by
        simp [List.mem_insert_iff, hx]
      simpa [mark_allowed_closure_args] using
        mark_allowed_mono { s with allowed := s.allowed.insert i } rest x h2
    | methodCall _ _ _ _ =>
      simpa [mark_allowed_closure_args] using mark_allowed_mono s rest x hx
    | call _ _ _ _ =>
      simpa [mark_allowed_closure_args] using mark_allowed_mono s rest x hx
    | pathE _ _ =>
      simpa [mark_allowed_closure_args] using mark_allowed_mono s rest x hx
    | lit _ =>
      simpa [mark_allowed_closure_args] using mark_allowed_mono s rest x hx

theorem mark_adds_closure : ∀ (s : LintState) (l : HExprList) (aid : Nat) (body : HExpr),
    HExprList.hasElem (.closure aid body) l →
    aid ∈ (mark_allowed_closure_args s l).allowed
  | s, .nil, aid, body, h => h.elim
  | s, .cons a rest, aid, body, h => by
    cases h with
    | inl heq =>
      subst heq
      have h2 : aid ∈ ({ s with allowed := s.allowed.insert aid } : LintState).allowed := by
        simp [List.mem_insert_iff]
      simpa [mark_allowed_closure_args] using
        mark_allowed_mono { s with allowed := s.allowed.insert aid } rest aid h2
    | inr h2 =>
      cases a with
      | closure i b =>
        simpa [mark_allowed_closure_args] using
          mark_adds_closure { s with allowed := s.allowed.insert i } rest aid body h2
      | methodCall _ _ _ _ =>
        simpa [mark_allowed_closure_args] using mark_adds_closure s rest aid body h2
      | call _ _ _ _ =>
        simpa [mark_allowed_closure_args] using mark_adds_closure s rest aid body h2
      | pathE _ _ =>
        simpa [mark_allowed_closure_args] using mark_adds_closure s rest aid body h2
      | lit _ =>
        simpa [mark_allowed_closure_args] using mark_adds_closure s rest aid body h2

theorem checkExprPre_methodCall_stack (s : LintState) (i : Nat) (nm : String)
    (recv : HExpr) (args : HExprList) :
    (checkExprPre s (.methodCall i nm recv args)).stack = s.stack := by
  simp only [checkExprPre]
  split
  · exact (mark_components s args).1
  · rfl

theorem checkExprPre_methodCall_trace (s : LintState) (i : Nat) (nm : String)
    (recv : HExpr) (args : HExprList) :
    (checkExprPre s (.methodCall i nm recv args)).trace = s.trace := by
  simp only [checkExprPre]
  split
  · exact (mark_components s args).2.2
  · rfl

theorem checkExprPre_call_stack (s : LintState) (i sp : Nat) (f : HExpr)
    (args : HExprList) :
    (checkExprPre s (.call i sp f args)).stack = s.stack := by
  simp only [checkExprPre]
  exact (lintCall_components _ sp f).1

theorem checkExprPre_call_trace (s : LintState) (i sp : Nat) (f : HExpr)
    (args : HExprList) :
    (checkExprPre s (.call i sp f args)).trace
      = s.trace ++ [(i, currently_allowed s)] := by
  simp only [checkExprPre]
  exact (lintCall_components _ sp f).2.2

mutual
theorem walk_stack : ∀ (s : LintState) (e : HExpr), (walk s e).stack = s.stack
  | s, .methodCall i nm recv args => by
    have h1 := walk_stack (checkExprPre s (.methodCall i nm recv args)) recv
    have h2 := walkList_stack (walk (checkExprPre s (.methodCall i nm recv args)) recv) args
    simp only [walk, checkExprPost]
    rw [h2, h1, checkExprPre_methodCall_stack]
  | s, .closure i body => by
    have h1 := walk_stack (checkExprPre s (.closure i body)) body
    simp only [walk, checkExprPost, pop_closure_allowed]
    rw [h1]
    rfl
  | s, .call i sp f args => by
    have h1 := walk_stack (checkExprPre s (.call i sp f args)) f
    have h2 := walkList_stack (walk (checkExprPre s (.call i sp f args)) f) args
    simp only [walk, checkExprPost]
    rw [h2, h1, checkExprPre_call_stack]
  | s, .pathE i q => rfl
  | s, .lit i => rfl
theorem walkList_stack : ∀ (s : LintState) (l : HExprList), (walkList s l).stack = s.stack
  | s, .nil => rfl
  | s, .cons e rest => by
    have h1 := walk_stack s e
    have h2 := walkList_stack (walk s e) rest
    simp only [walkList]
    rw [h2, h1]
end

mutual
theorem walk_allowed_mono : ∀ (s : LintState) (e : HExpr) (x : Nat),
    x ∈ s.allowed → x ∈ (walk s e).allowed
  | s, .methodCall i nm recv args, x, hx => by
    have h0 : x ∈ (checkExprPre s (.methodCall i nm recv args)).allowed := by
      simp only [checkExprPre]
      split
      · exact mark_allowed_mono s args x hx
      · exact hx
    simp only [walk, checkExprPost]
    exact walkList_allowed_mono _ args x (walk_allowed_mono _ recv x h0)
  | s, .closure i body, x, hx => by
    simp only [walk, checkExprPost, pop_closure_allowed]
    exact walk_allowed_mono _ body x hx
  | s, .call i sp f args, x, hx => by
    have h0 : x ∈ (checkExprPre s (.call i sp f args)).allowed := by
      simp only [checkExprPre]
      rw [(lintCall_components _ sp f).2.1]
      exact hx
    simp only [walk, checkExprPost]
    exact walkList_allowed_mono _ args x (walk_allowed_mono _ f x h0)
  | s, .pathE i q, x, hx => hx
  | s, .lit i, x, hx => hx
theorem walkList_allowed_mono : ∀ (s : LintState) (l : HExprList) (x : Nat),
    x ∈ s.allowed → x ∈ (walkList s l).allowed
  | s, .nil, x, hx => hx
  | s, .cons e rest, x, hx =>
    walkList_allowed_mono (walk s e) rest x (walk_allowed_mono s e x hx)
end

mutual
theorem walk_trace_top : ∀ (s : LintState) (e : HExpr),
    s.stack.headD false = true →
    ∀ p ∈ (walk s e).trace, p ∈ s.trace ∨ p.2 = true
  | s, .methodCall i nm recv args, h, p, hp => by
    have hp2 : p ∈ (walkList (walk (checkExprPre s (.methodCall i nm recv args)) recv)
        args).trace := hp
    have hs1 : (walk (checkExprPre s (.methodCall i nm recv args)) recv).stack = s.stack := by
      rw [walk_stack, checkExprPre_methodCall_stack]
    rcases walkList_trace_top _ args (by rw [hs1]; exact h) p hp2 with h1 | h1
    · rcases walk_trace_top _ recv (by rw [checkExprPre_methodCall_stack]; exact h) p h1
        with h2 | h2
      · rw [checkExprPre_methodCall_trace] at h2
        exact Or.inl h2
      · exact Or.inr h2
    · exact Or.inr h1
  | s, .closure i body, h, p, hp => by
    have htop : ((push_closure_allowed s i).stack).headD false = true := by
      show ((decide (i ∈ s.allowed) || s.stack.headD false) :: s.stack).headD false = true
      rw [List.headD_cons, h, Bool.or_true]
    have hp2 : p ∈ (walk (push_closure_allowed s i) body).trace := hp
    rcases walk_trace_top _ body htop p hp2 with h1 | h1
    · exact Or.inl h1
    · exact Or.inr h1
  | s, .call i sp f args, h, p, hp => by
    have hp2 : p ∈ (walkList (walk (checkExprPre s (.call i sp f args)) f) args).trace := hp
    have hs1 : (walk (checkExprPre s (.call i sp f args)) f).stack = s.stack := by
      rw [walk_stack, checkExprPre_call_stack]
    rcases walkList_trace_top _ args (by rw [hs1]; exact h) p hp2 with h1 | h1
    · rcases walk_trace_top _ f (by rw [checkExprPre_call_stack]; exact h) p h1 with h2 | h2
      · rw [checkExprPre_call_trace] at h2
        rcases List.mem_append.mp h2 with h3 | h3
        · exact Or.inl h3
        · right
          have h4 : p = (i, currently_allowed s) := by simpa using h3
          rw [h4]
          simpa [currently_allowed] using h
      · exact Or.inr h2
    · exact Or.inr h1
  | s, .pathE i q, h, p, hp => Or.inl hp
  | s, .lit i, h, p, hp => Or.inl hp
theorem walkList_trace_top : ∀ (s : LintState) (l : HExprList),
    s.stack.headD false = true →
    ∀ p ∈ (walkList s l).trace, p ∈ s.trace ∨ p.2 = true
  | s, .nil, h, p, hp => Or.inl hp
  | s, .cons e rest, h, p, hp => by
    have hst : (walk s e).stack = s.stack := walk_stack s e
    rcases walkList_trace_top (walk s e) rest (by rw [hst]; exact h) p hp with h1 | h1
    · rcases walk_trace_top s e h p h1 with h2 | h2
      · exact Or.inl h2
      · exact Or.inr h2
    · exact Or.inr h1
end

end EnsureObsCallInRuntime

/-!
## Claims on the guarded-call lint
-/

namespace EnsureObsCallInRuntime

open Hir

/-- C4: permission is inherited downward through arbitrarily nested
closures.  For a wrapper method call (`run_with_obs` or
`run_with_obs_result`) with a closure among its direct arguments:
(1) visiting the wrapper call marks that closure's id in the allowed set
before any argument subtree is walked; (2) the allowed set only grows
during any walk, so the mark survives until the closure is entered; and
(3) once a marked closure is walked, every call expression visited
anywhere inside it — at any closure-nesting depth — sees
`currently_allowed() = true`, because entering a closure pushes
`is_explicitly_allowed || current_top` (default `false` on an empty
stack). -/
theorem C4_closure_permission_inherited (s : LintState) (wid : Nat) (nm : String)
    (recv : HExpr) (argsL : HExprList) (aid : Nat) (body : HExpr)
    (hnm : nm = "run_with_obs" ∨ nm = "run_with_obs_result")
    (hmem : HExprList.hasElem (.closure aid body) argsL) :
    aid ∈ (checkExprPre s (.methodCall wid nm recv argsL)).allowed
      ∧ (∀ (t : LintState) (e : HExpr) (x : Nat), x ∈ t.allowed → x ∈ (walk t e).allowed)
      ∧ (∀ t : LintState, aid ∈ t.allowed →
          ∀ p ∈ (walk t (.closure aid body)).trace, p ∈ t.trace ∨ p.2 = true) := by
  refine ⟨?_, fun t e x hx => walk_allowed_mono t e x hx, ?_⟩
  · have hcond : (nm == "run_with_obs" || nm == "run_with_obs_result") = true := by
      rcases hnm with h | h <;> simp [h]
    simp only [checkExprPre, hcond, if_true]
    exact mark_adds_closure s argsL aid body hmem
  · intro t ht p hp
    have htop : ((checkExprPre t (.closure aid body)).stack).headD false = true := by
      show ((decide (aid ∈ t.allowed) || t.stack.headD false) :: t.stack).headD false = true
      rw [List.headD_cons]
      simp [ht]
    have hp2 : p ∈ (walk (checkExprPre t (.closure aid body)) body).trace := hp
    rcases walk_trace_top _ body htop p hp2 with h1 | h1
    · exact Or.inl h1
    · exact Or.inr h1

/-- C4 witness: a doubly nested closure inside a `run_with_obs` closure
argument; applying the theorem at this input shows the closure argument
is marked by the wrapper call's pre-order hook. -/
theorem C4_closure_permission_witness :
    (("run_with_obs" : String) = "run_with_obs"
        ∨ ("run_with_obs" : String) = "run_with_obs_result")
      ∧ HExprList.hasElem (.closure 2 c4Body) (.cons (.closure 2 c4Body) .nil)
      ∧ 2 ∈ (checkExprPre initState (.methodCall 0 "run_with_obs" (.lit 1)
            (.cons (.closure 2 c4Body) .nil))).allowed := by
  refine ⟨Or.inl rfl, Or.inl rfl, ?_⟩
  exact (C4_closure_permission_inherited initState 0 "run_with_obs" (.lit 1)
    (.cons (.closure 2 c4Body) .nil) 2 c4Body (Or.inl rfl) (Or.inl rfl)).1

/-- C5: the pre-order hook of the guarded-call rule appends exactly the
Findings described by the claim — one Finding, at the call expression's
span, for a direct (non-method) call whose callee is a path resolving to
a definition whose crate name equals exactly `libobs` while
`is_currently_permitted()` is false, and nothing for any other node (in
particular, never for a method call) — and the post-order hook emits
nothing. -/
theorem C5_guarded_call_exact (s : LintState) (e : HExpr) :
    (checkExprPre s e).findings = s.findings ++ guardedFindingsClaim s e
      ∧ (checkExprPost s e).findings = s.findings := by
  constructor
  · cases e with
    | methodCall i nm recv args =>
      simp only [checkExprPre, guardedFindingsClaim]
      split
      · rw [(mark_components s args).2.1]
        simp
      · simp
    | closure i body =>
      simp [checkExprPre, push_closure_allowed, guardedFindingsClaim]
    | call i sp f args =>
      simp only [checkExprPre, guardedFindingsClaim]
      cases f with
      | pathE j q =>
        cases hq : qpathOptDefCrate q with
        | some cn =>
          simp only [lintCall, hq]
          have hfrom : is_from_libobs_crate cn = (cn == "libobs") := rfl
          have hca : currently_allowed
              ({ s with trace := s.trace ++ [(i, currently_allowed s)] }) =
              currently_allowed s := rfl
          cases hb : ((cn == "libobs") && !(currently_allowed s)) with
          | true =>
            rw [show (is_from_libobs_crate cn
                && !(currently_allowed ({ s with trace := s.trace
                  ++ [(i, currently_allowed s)] }))) = true from by rw [hfrom, hca, hb]]
            simp [hb]
          | false =>
            rw [show (is_from_libobs_crate cn
                && !(currently_allowed ({ s with trace := s.trace
                  ++ [(i, currently_allowed s)] }))) = false from by rw [hfrom, hca, hb]]
            simp [hb]
        | none => simp [lintCall, hq]
      | methodCall _ _ _ _ => simp [lintCall]
      | closure _ _ => simp [lintCall]
      | call _ _ _ _ => simp [lintCall]
      | lit _ => simp [lintCall]
    | pathE i q => simp [checkExprPre, guardedFindingsClaim]
    | lit i => simp [checkExprPre, guardedFindingsClaim]
  · cases e <;> simp [checkExprPost, pop_closure_allowed]

/-- C8 counterexample: the allowed-closure set is thread-local state that
is never reset between compilation units.  Unit 1 marks closure id 5;
when unit 2 (whose closure happens to reuse id 5 and contains a libobs
call) is analyzed fresh, the call is flagged at span 99 — but when it is
analyzed on the same thread after unit 1, the leaked entry suppresses
the Finding, so the recorded entries of one unit do affect a later
unit. -/
theorem C8_counterexample_leak :
    (walk initState c8Unit2).findings = [99]
      ∧ (walk initState c8Unit1).allowed ≠ []
      ∧ (walk (walk initState c8Unit1) c8Unit2).findings
          = (walk initState c8Unit1).findings := by
  refine ⟨rfl, ?_, rfl⟩
  decide

/-- C8 (amended): across one traversal the closure stack is balanced —
it returns to exactly its pre-traversal value — but the allowed-closure
set persists: it is never cleared, every entry present before a
traversal is still present after it, so entries recorded during one
unit's traversal remain visible to any later unit analyzed on the same
thread. -/
theorem C8_amended_thread_state (s : LintState) (e : HExpr) :
    (walk s e).stack = s.stack ∧ ∀ x ∈ s.allowed, x ∈ (walk s e).allowed :=
  ⟨walk_stack s e, fun x hx => walk_allowed_mono s e x hx⟩

/-- C8 witness: an entry present before a traversal survives it. -/
theorem C8_amended_witness :
    5 ∈ ({ allowed := [5], stack := [], findings := [], trace := [] } : LintState).allowed
      ∧ 5 ∈ (walk { allowed := [5], stack := [], findings := [], trace := [] }
          c8Unit2).allowed := by
  refine ⟨by decide, ?_⟩
  exact (C8_amended_thread_state
    { allowed := [5], stack := [], findings := [], trace := [] } c8Unit2).2 5 (by decide)

end EnsureObsCallInRuntime
